import Mathlib

/-!
Verification development for the listo365 order-inquiry backend.

The definitions below are a shallow embedding of the TypeScript source:
money amounts are exact rationals, database tables are Lean lists,
JavaScript `undefined`/`null` is `Option`, and `Number(x.toFixed(2))`
is modelled as exact half-up rounding to two decimal places.
-/

namespace Listo

/-- Models `Number(x.toFixed(2))` on a rational amount: half-up rounding
to two decimal places (`src/routes/orders.ts`, `calcTotals`;
`src/routes/products.ts`, `computeSale`). -/
def round2 (q : ℚ) : ℚ := ((⌊q * 100 + 1/2⌋ : ℤ) : ℚ) / 100

/-- Models `asNum` (`src/routes/orders.ts` lines 121-124): `Number(v)`
coerced to `0` when not finite.  A malformed / missing numeric input is
`none`; a finite numeric input is `some q`. -/
def asNum (v : Option ℚ) : ℚ := v.getD 0

/-- A line item as consumed by `calcTotals`: a quantity and a possibly
malformed unit price. -/
structure CalcItem where
  quantity : ℕ
  unitPrice : Option ℚ
deriving DecidableEq

/-- Models `calcTotals` (`src/routes/orders.ts` lines 163-172): the
subtotal is the reduce of `quantity * asNum(unitPrice)` starting at 0,
and both components are `Number(subtotal.toFixed(2))`. -/
def calcTotals (items : List CalcItem) : ℚ × ℚ :=
  let subtotal := items.foldl (fun acc it => acc + (it.quantity : ℚ) * asNum it.unitPrice) 0
  (round2 subtotal, round2 subtotal)

/-- The reduce used by `calcTotals` equals the mathematical sum of the
per-line amounts. -/
theorem calcTotals_foldl_eq_sum (items : List CalcItem) (a : ℚ) :
    items.foldl (fun acc it => acc + (it.quantity : ℚ) * asNum it.unitPrice) a
      = a + (items.map (fun it => (it.quantity : ℚ) * asNum it.unitPrice)).sum := by
  induction items generalizing a with
  | nil => simp
  | cons it rest ih =>
      simp [List.foldl_cons, ih, add_assoc]

/-! ## Order status transitions and the stock ledger (C1) -/

/-- The five order statuses (`src/routes/orders.ts` lines 106-118). -/
inductive OrderStatus where
  | received
  | inProgress
  | completed
  | refused
  | cancelled
deriving DecidableEq

/-- An order item as read back inside the status-transition transaction:
product id, quantity, optional variant id. -/
structure StockItem where
  productId : String
  quantity : ℕ
  variantId : Option String
deriving DecidableEq

/-- The stock ledger: per-product and per-variant integer stock counters. -/
structure StockState where
  productStock : String → ℤ
  variantStock : String → ℤ

/-- Direction argument of `applyStockDelta`. -/
inductive StockDirection where
  | dec
  | inc
deriving DecidableEq

/-- The signed delta applied per item: `direction === "dec" ? -quantity :
quantity` (`src/routes/orders.ts` line 137). -/
def itemDelta (direction : StockDirection) (q : ℕ) : ℤ :=
  match direction with
  | .dec => -(q : ℤ)
  | .inc => (q : ℤ)

/-- Sign of a direction, so `itemDelta d q = dirSign d * q`. -/
def dirSign (direction : StockDirection) : ℤ :=
  match direction with
  | .dec => -1
  | .inc => 1

/-- One iteration of the `applyStockDelta` loop body: increment the
product stock by the delta, then, when the item carries a variant id,
increment that variant's stock by the same delta. -/
def stepStock (direction : StockDirection) (st : StockState) (it : StockItem) : StockState :=
  let delta := itemDelta direction it.quantity
  let st1 : StockState :=
    { st with productStock :=
        Function.update st.productStock it.productId (st.productStock it.productId + delta) }
  match it.variantId with
  | some v =>
      { st1 with variantStock :=
          Function.update st1.variantStock v (st1.variantStock v + delta) }
  | none => st1

/-- Models `applyStockDelta` (`src/routes/orders.ts` lines 126-149): the
loop over the items. -/
def applyStockDelta (items : List StockItem) (direction : StockDirection)
    (s : StockState) : StockState :=
  items.foldl (stepStock direction) s

/-- Total ordered quantity referencing a given product id. -/
def totalQty (items : List StockItem) (pid : String) : ℕ :=
  ((items.filter (fun it => it.productId == pid)).map (·.quantity)).sum

/-- Total ordered quantity referencing a given variant id. -/
def variantQty (items : List StockItem) (vid : String) : ℕ :=
  ((items.filter (fun it => it.variantId == some vid)).map (·.quantity)).sum

/-- Models the body of `orders.patch("/:id/status")`
(`src/routes/orders.ts` lines 464-510): stock is decremented when moving
into COMPLETED from a non-COMPLETED status, incremented when leaving
COMPLETED, untouched otherwise, and the new status is persisted. -/
def setStatusStock (items : List StockItem) (prev next : OrderStatus)
    (s : StockState) : StockState × OrderStatus :=
  if prev ≠ .completed ∧ next = .completed then
    (applyStockDelta items .dec s, next)
  else if prev = .completed ∧ next ≠ .completed then
    (applyStockDelta items .inc s, next)
  else
    (s, next)

theorem itemDelta_eq_sign_mul (d : StockDirection) (q : ℕ) :
    itemDelta d q = dirSign d * q := by
  cases d <;> simp [itemDelta, dirSign]

theorem stepStock_productStock (d : StockDirection) (st : StockState) (it : StockItem)
    (pid : String) :
    (stepStock d st it).productStock pid
      = st.productStock pid + (if it.productId == pid then itemDelta d it.quantity else 0) := by
  rcases it with ⟨p, q, v⟩
  cases v <;>
    simp only [stepStock, Function.update_apply] <;>
    · rcases eq_or_ne p pid with h | h
      · simp [h]
      · simp [h, Ne.symm h]

theorem stepStock_variantStock (d : StockDirection) (st : StockState) (it : StockItem)
    (vid : String) :
    (stepStock d st it).variantStock vid
      = st.variantStock vid + (if it.variantId == some vid then itemDelta d it.quantity else 0) := by
  rcases it with ⟨p, q, v⟩
  cases v with
  | none => simp [stepStock]
  | some w =>
      simp only [stepStock, Function.update_apply]
      rcases eq_or_ne w vid with h | h
      · simp [h]
      · simp [h, Ne.symm h]

theorem totalQty_cons (it : StockItem) (rest : List StockItem) (pid : String) :
    totalQty (it :: rest) pid
      = (if it.productId == pid then it.quantity else 0) + totalQty rest pid := by
  rcases h : (it.productId == pid) with _ | _ <;>
    simp [totalQty, List.filter_cons, h]

theorem variantQty_cons (it : StockItem) (rest : List StockItem) (vid : String) :
    variantQty (it :: rest) vid
      = (if it.variantId == some vid then it.quantity else 0) + variantQty rest vid := by
  rcases h : (it.variantId == some vid) with _ | _ <;>
    simp [variantQty, List.filter_cons, h]

theorem applyStockDelta_productStock (items : List StockItem) (d : StockDirection)
    (s : StockState) (pid : String) :
    (applyStockDelta items d s).productStock pid
      = s.productStock pid + dirSign d * totalQty items pid := by
  induction items generalizing s with
  | nil => simp [applyStockDelta, totalQty]
  | cons it rest ih =>
      have hstep : applyStockDelta (it :: rest) d s
          = applyStockDelta rest d (stepStock d s it) := rfl
      rw [hstep, ih, stepStock_productStock, totalQty_cons]
      rcases h : (it.productId == pid) with _ | _
      · simp [h]
      · simp [h, itemDelta_eq_sign_mul]
        ring

theorem applyStockDelta_variantStock (items : List StockItem) (d : StockDirection)
    (s : StockState) (vid : String) :
    (applyStockDelta items d s).variantStock vid
      = s.variantStock vid + dirSign d * variantQty items vid := by
  induction items generalizing s with
  | nil => simp [applyStockDelta, variantQty]
  | cons it rest ih =>
      have hstep : applyStockDelta (it :: rest) d s
          = applyStockDelta rest d (stepStock d s it) := rfl
      rw [hstep, ih, stepStock_variantStock, variantQty_cons]
      rcases h : (it.variantId == some vid) with _ | _
      · simp [h]
      · simp [h, itemDelta_eq_sign_mul]
        ring

theorem setStatusStock_dec (items : List StockItem) (prev next : OrderStatus)
    (s : StockState) (h1 : prev ≠ .completed) (h2 : next = .completed) :
    setStatusStock items prev next s = (applyStockDelta items .dec s, next) := by
  simp [setStatusStock, h1, h2]

theorem setStatusStock_inc (items : List StockItem) (prev next : OrderStatus)
    (s : StockState) (h1 : prev = .completed) (h2 : next ≠ .completed) :
    setStatusStock items prev next s = (applyStockDelta items .inc s, next) := by
  simp [setStatusStock, h1, h2]

theorem setStatusStock_noop (items : List StockItem) (prev next : OrderStatus)
    (s : StockState) (h : prev = .completed ↔ next = .completed) :
    setStatusStock items prev next s = (s, next) := by
  rcases Classical.em (prev = .completed) with hp | hp
  · have hn : next = .completed := h.mp hp
    simp [setStatusStock, hp, hn]
  · have hn : next ≠ .completed := fun hx => hp (h.mpr hx)
    simp [setStatusStock, hp, hn]

/-- C1: the status-transition operation decrements each referenced
product's (and, when present, variant's) stock by the ordered quantity
exactly when moving from a non-COMPLETED status into COMPLETED,
increments it by the same amount exactly when leaving COMPLETED, and
leaves stock unchanged on any other transition (including
COMPLETED → COMPLETED); hence completing then un-completing restores the
starting stock exactly, and completing twice leaves stock at `S - Q`,
not `S - 2Q`. -/
theorem claim_status_transition_stock (s : StockState) (items : List StockItem)
    (prev next : OrderStatus) :
    ((setStatusStock items prev next s).2 = next)
    ∧ (prev ≠ .completed → next = .completed →
        (∀ pid, ((setStatusStock items prev next s).1).productStock pid
            = s.productStock pid - totalQty items pid)
        ∧ (∀ vid, ((setStatusStock items prev next s).1).variantStock vid
            = s.variantStock vid - variantQty items vid))
    ∧ (prev = .completed → next ≠ .completed →
        (∀ pid, ((setStatusStock items prev next s).1).productStock pid
            = s.productStock pid + totalQty items pid)
        ∧ (∀ vid, ((setStatusStock items prev next s).1).variantStock vid
            = s.variantStock vid + variantQty items vid))
    ∧ ((prev = .completed ↔ next = .completed) → (setStatusStock items prev next s).1 = s)
    ∧ (prev ≠ .completed → ∀ next2, next2 ≠ .completed →
        (∀ pid,
          ((setStatusStock items .completed next2
              ((setStatusStock items prev .completed s).1)).1).productStock pid
            = s.productStock pid)
        ∧ (∀ vid,
          ((setStatusStock items .completed next2
              ((setStatusStock items prev .completed s).1)).1).variantStock vid
            = s.variantStock vid))
    ∧ (prev ≠ .completed →
        (∀ pid,
          ((setStatusStock items .completed .completed
              ((setStatusStock items prev .completed s).1)).1).productStock pid
            = s.productStock pid - totalQty items pid)
        ∧ (∀ vid,
          ((setStatusStock items .completed .completed
              ((setStatusStock items prev .completed s).1)).1).variantStock vid
            = s.variantStock vid - variantQty items vid)) := by
  refine ⟨?_, ?_, ?_, ?_, ?_, ?_⟩
  · by_cases h1 : prev ≠ .completed ∧ next = .completed
    · rw [setStatusStock_dec items prev next s h1.1 h1.2]
    · by_cases h2 : prev = .completed ∧ next ≠ .completed
      · rw [setStatusStock_inc items prev next s h2.1 h2.2]
      · simp [setStatusStock, h1, h2]
  · intro h1 h2
    rw [setStatusStock_dec items prev next s h1 h2]
    constructor
    · intro pid
      rw [applyStockDelta_productStock]
      simp [dirSign]
      ring
    · intro vid
      rw [applyStockDelta_variantStock]
      simp [dirSign]
      ring
  · intro h1 h2
    rw [setStatusStock_inc items prev next s h1 h2]
    constructor
    · intro pid
      rw [applyStockDelta_productStock]
      simp [dirSign]
    · intro vid
      rw [applyStockDelta_variantStock]
      simp [dirSign]
  · intro h
    rw [setStatusStock_noop items prev next s h]
  · intro h1 next2 h2
    rw [setStatusStock_dec items prev .completed s h1 rfl,
        setStatusStock_inc items .completed next2 _ rfl h2]
    constructor
    · intro pid
      rw [applyStockDelta_productStock, applyStockDelta_productStock]
      simp [dirSign]
    · intro vid
      rw [applyStockDelta_variantStock, applyStockDelta_variantStock]
      simp [dirSign]
  · intro h1
    rw [setStatusStock_dec items prev .completed s h1 rfl,
        setStatusStock_noop items .completed .completed _ Iff.rfl]
    constructor
    · intro pid
      rw [applyStockDelta_productStock]
      simp [dirSign]
      ring
    · intro vid
      rw [applyStockDelta_variantStock]
      simp [dirSign]
      ring

/-- Witness for C1: one item of quantity 2 on product `p1` / variant
`v1`, starting stock 10 everywhere.  Completing takes product stock to
8, completing again keeps it at 8, and completing then cancelling
restores 10; variant stock behaves the same way. -/
theorem claim_status_transition_stock_witness :
    ((setStatusStock [⟨"p1", 2, some "v1"⟩] .received .completed
        ⟨fun _ => 10, fun _ => 10⟩).1).productStock "p1" = 10 - (2 : ℤ)
    ∧ ((setStatusStock [⟨"p1", 2, some "v1"⟩] .received .completed
        ⟨fun _ => 10, fun _ => 10⟩).1).variantStock "v1" = 10 - (2 : ℤ)
    ∧ ((setStatusStock [⟨"p1", 2, some "v1"⟩] .completed .cancelled
        ((setStatusStock [⟨"p1", 2, some "v1"⟩] .received .completed
          ⟨fun _ => 10, fun _ => 10⟩).1)).1).productStock "p1" = 10
    ∧ ((setStatusStock [⟨"p1", 2, some "v1"⟩] .completed .completed
        ((setStatusStock [⟨"p1", 2, some "v1"⟩] .received .completed
          ⟨fun _ => 10, fun _ => 10⟩).1)).1).productStock "p1" = 10 - (2 : ℤ) := by
  have h := claim_status_transition_stock ⟨fun _ => 10, fun _ => 10⟩
    [⟨"p1", 2, some "v1"⟩] .received .completed
  refine ⟨(h.2.1 (by decide) rfl).1 "p1", (h.2.1 (by decide) rfl).2 "v1", ?_, ?_⟩
  · exact (h.2.2.2.2.1 (by decide) .cancelled (by decide)).1 "p1"
  · exact (h.2.2.2.2.2 (by decide)).1 "p1"

/-! ## Slug derivation (C9) -/

/-- A character kept verbatim by the slug regex `[^a-z0-9]+`: lowercase
ASCII letter or digit. -/
def isSlugChar (c : Char) : Bool :=
  (decide ('a' ≤ c) && decide (c ≤ 'z')) || (decide ('0' ≤ c) && decide (c ≤ '9'))

/-- Models `.replace(/[^a-z0-9]+/g, "-")`: every maximal run of
characters outside `[a-z0-9]` becomes a single hyphen.  The flag records
whether we are currently inside such a run. -/
def collapseRuns (inRun : Bool) : List Char → List Char
  | [] => []
  | c :: cs =>
      if isSlugChar c then c :: collapseRuns false cs
      else if inRun then collapseRuns true cs
      else '-' :: collapseRuns true cs

/-- Removes one leading hyphen, if present. -/
def stripLeadDash : List Char → List Char
  | '-' :: t => t
  | l => l

/-- Removes one trailing hyphen, if present. -/
def stripTrailDash (l : List Char) : List Char :=
  (stripLeadDash l.reverse).reverse

/-- Character-list form of the slug pipeline: lower-case, collapse
non-alphanumeric runs to single hyphens (`/[^a-z0-9]+/g`), then strip
one leading and one trailing hyphen (`/(^-|-$)/g`). -/
def slugifyL (s : List Char) : List Char :=
  stripTrailDash (stripLeadDash (collapseRuns false (s.map Char.toLower)))

/-- Models `slugify` (`src/routes/categories.ts` lines 9-14). -/
def slugify (s : String) : String := ⟨slugifyL s.data⟩

/-- Models the inline slug derivation of `products.post("/")`
(`src/routes/products.ts` lines 340-343), which applies the same three
string operations to the product name. -/
def productSlug (name : String) : String :=
  ⟨stripTrailDash (stripLeadDash (collapseRuns false (name.data.map Char.toLower)))⟩

/-- Binary predicate forbidding two adjacent hyphens. -/
def noDD (a b : Char) : Prop := ¬(a = '-' ∧ b = '-')

theorem collapseRuns_cons_slug {x : Char} (b : Bool) (xs : List Char)
    (h : isSlugChar x = true) :
    collapseRuns b (x :: xs) = x :: collapseRuns false xs := by
  rw [collapseRuns]
  simp [h]

theorem collapseRuns_cons_run {x : Char} (xs : List Char)
    (h : ¬ isSlugChar x = true) :
    collapseRuns true (x :: xs) = collapseRuns true xs := by
  rw [collapseRuns]
  simp [h]

theorem collapseRuns_cons_new {x : Char} (xs : List Char)
    (h : ¬ isSlugChar x = true) :
    collapseRuns false (x :: xs) = '-' :: collapseRuns true xs := by
  rw [collapseRuns]
  simp [h]

/-- A slug character is never the hyphen. -/
theorem isSlugChar_ne_dash {c : Char} (h : isSlugChar c = true) : c ≠ '-' := by
  intro hc
  subst hc
  simp [isSlugChar] at h

/-- Every character that `collapseRuns` emits is a slug character or a
hyphen. -/
theorem collapseRuns_chars (b : Bool) (l : List Char) :
    ∀ c ∈ collapseRuns b l, isSlugChar c = true ∨ c = '-' := by
  induction l generalizing b with
  | nil => simp [collapseRuns]
  | cons x xs ih =>
      intro c hc
      by_cases hx : isSlugChar x = true
      · rw [collapseRuns_cons_slug b xs hx] at hc
        rcases List.mem_cons.mp hc with rfl | hc
        · exact Or.inl hx
        · exact ih false c hc
      · cases b with
        | true =>
            rw [collapseRuns_cons_run xs hx] at hc
            exact ih true c hc
        | false =>
            rw [collapseRuns_cons_new xs hx] at hc
            rcases List.mem_cons.mp hc with rfl | hc
            · exact Or.inr rfl
            · exact ih true c hc

/-- When the run flag is set, `collapseRuns` never emits a leading
hyphen. -/
theorem collapseRuns_true_head (l : List Char) :
    ∀ c ∈ (collapseRuns true l).head?, c ≠ '-' := by
  induction l with
  | nil => simp [collapseRuns]
  | cons x xs ih =>
      by_cases hx : isSlugChar x = true
      · rw [collapseRuns_cons_slug true xs hx]
        simp only [List.head?_cons, Option.mem_def, Option.some.injEq]
        rintro c rfl
        exact isSlugChar_ne_dash hx
      · rw [collapseRuns_cons_run xs hx]
        exact ih

/-- The output of `collapseRuns` never contains two adjacent hyphens. -/
theorem collapseRuns_chain (b : Bool) (l : List Char) :
    (collapseRuns b l).Chain' noDD := by
  induction l generalizing b with
  | nil => simp [collapseRuns]
  | cons x xs ih =>
      by_cases hx : isSlugChar x = true
      · rw [collapseRuns_cons_slug b xs hx, List.chain'_cons']
        refine ⟨?_, ih false⟩
        intro y hy hcon
        exact isSlugChar_ne_dash hx hcon.1
      · cases b with
        | true =>
            rw [collapseRuns_cons_run xs hx]
            exact ih true
        | false =>
            rw [collapseRuns_cons_new xs hx, List.chain'_cons']
            refine ⟨?_, ih true⟩
            intro y hy hcon
            exact collapseRuns_true_head xs y hy hcon.2

/-- Character membership is preserved by `stripLeadDash`. -/
theorem stripLeadDash_subset (l : List Char) :
    ∀ c ∈ stripLeadDash l, c ∈ l := by
  match l with
  | [] => simp [stripLeadDash]
  | x :: xs =>
      intro c hc
      by_cases hx : x = '-'
      · subst hx
        simp only [stripLeadDash] at hc
        exact List.mem_cons_of_mem _ hc
      · have : stripLeadDash (x :: xs) = x :: xs := by
          unfold stripLeadDash
          split
          · rename_i heq
            cases heq
            exact absurd rfl hx
          · rfl
        rw [this] at hc
        exact hc

/-- The string after `stripLeadDash` is the original or its tail. -/
theorem stripLeadDash_cases (l : List Char) :
    stripLeadDash l = l ∨ (∃ t, l = '-' :: t ∧ stripLeadDash l = t) := by
  match l with
  | [] => exact Or.inl rfl
  | x :: xs =>
      by_cases hx : x = '-'
      · subst hx
        exact Or.inr ⟨xs, rfl, rfl⟩
      · left
        unfold stripLeadDash
        split
        · rename_i heq
          cases heq
          exact absurd rfl hx
        · rfl

/-- Adjacent-hyphen freedom is preserved by `stripLeadDash`. -/
theorem stripLeadDash_chain {l : List Char} (h : l.Chain' noDD) :
    (stripLeadDash l).Chain' noDD := by
  rcases stripLeadDash_cases l with heq | ⟨t, rfl, heq⟩
  · rwa [heq]
  · rw [heq]
    exact h.tail

/-- After `stripLeadDash` of an adjacent-hyphen-free string, the head is
not a hyphen. -/
theorem stripLeadDash_head {l : List Char} (h : l.Chain' noDD) :
    ∀ c ∈ (stripLeadDash l).head?, c ≠ '-' := by
  rcases stripLeadDash_cases l with heq | ⟨t, rfl, heq⟩
  · rw [heq]
    match l, h with
    | [], _ => simp
    | x :: xs, _ =>
        simp only [List.head?_cons, Option.mem_def, Option.some.injEq]
        rintro c rfl
        intro hx
        subst hx
        have : stripLeadDash ('-' :: xs) = xs := rfl
        rw [this] at heq
        have hlen := congrArg List.length heq
        simp at hlen
  · rw [heq]
    match t, h with
    | [], _ => simp
    | y :: ys, h =>
        simp only [List.head?_cons, Option.mem_def, Option.some.injEq]
        rintro c rfl
        intro hy
        subst hy
        have := List.chain'_cons.mp h
        exact this.1 ⟨rfl, rfl⟩

/-- If a string has no leading hyphen, `stripLeadDash` fixes it. -/
theorem stripLeadDash_eq_self {l : List Char}
    (h : ∀ c ∈ l.head?, c ≠ '-') : stripLeadDash l = l := by
  rcases stripLeadDash_cases l with heq | ⟨t, rfl, heq⟩
  · exact heq
  · exact absurd rfl (h '-' (by simp))

/-- Comparing characters is comparing their code points. -/
theorem char_le_iff_toNat (a b : Char) : a ≤ b ↔ a.toNat ≤ b.toNat := by
  rw [Char.le_def, UInt32.le_def, BitVec.le_def]
  exact Iff.rfl

/-- Lower-casing fixes every slug character and the hyphen (they are not
ASCII upper-case letters). -/
theorem toLower_fix {c : Char} (h : isSlugChar c = true ∨ c = '-') :
    c.toLower = c := by
  rcases h with h | rfl
  · simp only [Char.toLower]
    rw [if_neg]
    intro hcon
    simp only [isSlugChar, Bool.or_eq_true, Bool.and_eq_true, decide_eq_true_eq] at h
    rcases h with ⟨ha, _⟩ | ⟨_, h9⟩
    · have h1 := (char_le_iff_toNat 'a' c).mp ha
      have h2 : Char.toNat 'a' = 97 := rfl
      omega
    · have h1 := (char_le_iff_toNat c '9').mp h9
      have h2 : Char.toNat '9' = 57 := rfl
      omega
  · decide

/-- Lower-casing fixes strings made of slug characters and hyphens. -/
theorem map_toLower_fix {l : List Char}
    (h : ∀ c ∈ l, isSlugChar c = true ∨ c = '-') :
    l.map Char.toLower = l := by
  induction l with
  | nil => rfl
  | cons x xs ih =>
      rw [List.map_cons, toLower_fix (h x (by simp)), ih]
      intro c hc
      exact h c (List.mem_cons_of_mem _ hc)

/-- Collapsing runs fixes strings over `[a-z0-9-]` with no adjacent
hyphens (and no leading hyphen when the run flag is set). -/
theorem collapseRuns_fix :
    ∀ (l : List Char) (b : Bool),
      (∀ c ∈ l, isSlugChar c = true ∨ c = '-') →
      l.Chain' noDD →
      (b = true → ∀ c ∈ l.head?, c ≠ '-') →
      collapseRuns b l = l := by
  intro l
  induction l with
  | nil => intro b _ _ _; rfl
  | cons x xs ih =>
      intro b hchars hchain hhead
      rcases hchars x (by simp) with hx | hx
      · rw [collapseRuns_cons_slug b xs hx]
        rw [ih false (fun c hc => hchars c (List.mem_cons_of_mem _ hc))
          (List.chain'_cons'.mp hchain).2 (by intro h; cases h)]
      · subst hx
        cases b with
        | true => exact absurd rfl (hhead rfl '-' (by simp))
        | false =>
            rw [collapseRuns_cons_new xs (by decide)]
            rw [ih true (fun c hc => hchars c (List.mem_cons_of_mem _ hc))
              (List.chain'_cons'.mp hchain).2 ?_]
            intro _ c hc hcd
            subst hcd
            exact (List.chain'_cons'.mp hchain).1 '-' hc ⟨rfl, rfl⟩

/-- Character membership is preserved by `stripTrailDash`. -/
theorem stripTrailDash_subset (l : List Char) :
    ∀ c ∈ stripTrailDash l, c ∈ l := by
  intro c hc
  rw [stripTrailDash, List.mem_reverse] at hc
  have := stripLeadDash_subset l.reverse c hc
  rwa [List.mem_reverse] at this

/-- The no-adjacent-hyphen property survives reversal. -/
theorem chain_noDD_reverse {l : List Char} (h : l.Chain' noDD) :
    l.reverse.Chain' noDD := by
  rw [List.chain'_reverse]
  exact h.imp (fun _ _ hab hcon => hab ⟨hcon.2, hcon.1⟩)

/-- Adjacent-hyphen freedom is preserved by `stripTrailDash`. -/
theorem stripTrailDash_chain {l : List Char} (h : l.Chain' noDD) :
    (stripTrailDash l).Chain' noDD := by
  rw [stripTrailDash]
  exact chain_noDD_reverse (stripLeadDash_chain (chain_noDD_reverse h))

/-- After `stripTrailDash` of an adjacent-hyphen-free string, the last
character is not a hyphen. -/
theorem stripTrailDash_last {l : List Char} (h : l.Chain' noDD) :
    ∀ c ∈ (stripTrailDash l).reverse.head?, c ≠ '-' := by
  rw [stripTrailDash, List.reverse_reverse]
  exact stripLeadDash_head (chain_noDD_reverse h)

/-- The head survives `stripTrailDash` when it is not a hyphen. -/
theorem stripTrailDash_head {l : List Char}
    (h : ∀ c ∈ l.head?, c ≠ '-') :
    ∀ c ∈ (stripTrailDash l).head?, c ≠ '-' := by
  rcases stripLeadDash_cases l.reverse with heq | ⟨t, hrev, heq⟩
  · rw [stripTrailDash, heq, List.reverse_reverse]
    exact h
  · rw [stripTrailDash, heq]
    have hl : l = t.reverse ++ ['-'] := by
      have := congrArg List.reverse hrev
      simpa using this
    match ht : t.reverse, hl with
    | [], _ => simp
    | y :: ys, hl =>
        simp only [List.head?_cons, Option.mem_def, Option.some.injEq]
        rintro c rfl
        exact h y (by rw [hl]; simp)

/-- If the last character is not a hyphen, `stripTrailDash` fixes the
string. -/
theorem stripTrailDash_eq_self {l : List Char}
    (h : ∀ c ∈ l.reverse.head?, c ≠ '-') : stripTrailDash l = l := by
  rw [stripTrailDash, stripLeadDash_eq_self h, List.reverse_reverse]

/-- The shape invariant of produced slugs: characters in `[a-z0-9-]`,
no adjacent hyphens, no leading hyphen, no trailing hyphen. -/
def GoodSlug (l : List Char) : Prop :=
  (∀ c ∈ l, isSlugChar c = true ∨ c = '-')
  ∧ l.Chain' noDD
  ∧ (∀ c ∈ l.head?, c ≠ '-')
  ∧ (∀ c ∈ l.reverse.head?, c ≠ '-')

/-- Every output of the slug pipeline satisfies the shape invariant. -/
theorem slugifyL_good (s : List Char) : GoodSlug (slugifyL s) := by
  have hchars0 := collapseRuns_chars false (s.map Char.toLower)
  have hchain0 := collapseRuns_chain false (s.map Char.toLower)
  refine ⟨?_, ?_, ?_, ?_⟩
  · intro c hc
    exact hchars0 c
      (stripLeadDash_subset _ c (stripTrailDash_subset _ c hc))
  · exact stripTrailDash_chain (stripLeadDash_chain hchain0)
  · exact stripTrailDash_head (stripLeadDash_head hchain0)
  · exact stripTrailDash_last (stripLeadDash_chain hchain0)

/-- The slug pipeline fixes every string satisfying the shape
invariant. -/
theorem slugifyL_fix {l : List Char} (h : GoodSlug l) : slugifyL l = l := by
  obtain ⟨hchars, hchain, hhead, hlast⟩ := h
  rw [slugifyL, map_toLower_fix hchars,
    collapseRuns_fix l false hchars hchain (by intro hcon; cases hcon),
    stripLeadDash_eq_self hhead, stripTrailDash_eq_self hlast]

/-- C9: slugify is idempotent, its output is lowercase and stays inside
`[a-z0-9-]`, never starts or ends with a hyphen, and the product slug
derivation is the same function. -/
theorem claim_slugify_shape (s : String) :
    slugify (slugify s) = slugify s
    ∧ (∀ c ∈ (slugify s).data,
        (('a' ≤ c ∧ c ≤ 'z') ∨ ('0' ≤ c ∧ c ≤ '9')) ∨ c = '-')
    ∧ (∀ c ∈ (slugify s).data.head?, c ≠ '-')
    ∧ (∀ c ∈ (slugify s).data.reverse.head?, c ≠ '-')
    ∧ (∀ name : String, productSlug name = slugify name) := by
  have hgood := slugifyL_good s.data
  refine ⟨?_, ?_, hgood.2.2.1, hgood.2.2.2, fun _ => rfl⟩
  · show (⟨slugifyL (slugifyL s.data)⟩ : String) = ⟨slugifyL s.data⟩
    rw [slugifyL_fix hgood]
  · intro c hc
    rcases hgood.1 c hc with h | h
    · left
      simpa only [isSlugChar, Bool.or_eq_true, Bool.and_eq_true,
        decide_eq_true_eq] using h
    · right
      exact h

/-- Witness for C9 on the concrete name `"He_llo!"`, whose slug is
`"he-llo"`. -/
theorem claim_slugify_shape_witness :
    slugify (slugify ⟨['H', 'e', '_', 'l', 'l', 'o', '!']⟩)
        = slugify ⟨['H', 'e', '_', 'l', 'l', 'o', '!']⟩
    ∧ ((('a' ≤ 'h' ∧ 'h' ≤ 'z') ∨ ('0' ≤ 'h' ∧ 'h' ≤ '9')) ∨ 'h' = '-')
    ∧ ('e' ∈ (slugify ⟨['H', 'e', '_', 'l', 'l', 'o', '!']⟩).data.head? → 'e' ≠ '-')
    ∧ productSlug ⟨['H', 'e', '_', 'l', 'l', 'o', '!']⟩
        = slugify ⟨['H', 'e', '_', 'l', 'l', 'o', '!']⟩ := by
  have h := claim_slugify_shape ⟨['H', 'e', '_', 'l', 'l', 'o', '!']⟩
  exact ⟨h.1, h.2.1 'h' (by decide), h.2.2.1 'e', h.2.2.2.2 _⟩

/-! ## Products, promotions and the sale engine (C5) -/

/-- A product image row (`url`, `sortOrder`). -/
structure ImageRow where
  url : String
  sortOrder : ℤ
deriving DecidableEq

/-- A parent category as selected for serialization. -/
structure CategoryParentInfo where
  id : String
  name : String
  slug : String
deriving DecidableEq

/-- A linked category as selected for serialization. -/
structure CategoryInfo where
  id : String
  name : String
  slug : String
  parent : Option CategoryParentInfo
deriving DecidableEq

/-- A product variant row as selected by the products list route. -/
structure VariantRow where
  id : String
  name : String
  price : ℚ
  stock : ℤ
  active : Bool
  sortOrder : Option ℤ
  sku : Option String
  imageUrl : Option String
  images : Option (List ImageRow)
deriving DecidableEq

/-- A promotion row (`title`, optional discounts, window, active flag). -/
structure PromotionRec where
  title : String
  percentOff : Option ℚ
  priceOff : Option ℚ
  startsAt : ℚ
  endsAt : ℚ
  active : Bool
deriving DecidableEq

/-- The `sale` object reported by `computeSale`. -/
structure SaleInfo where
  title : String
  percentOff : Option ℚ
  priceOff : Option ℚ
  startsAt : ℚ
  endsAt : ℚ
  salePrice : ℚ
deriving DecidableEq

/-- A product row as loaded by the products list route, with the
visibility flags possibly absent (feature-flagged select) and an
optionally injected `sale`. -/
structure ProductRow where
  id : String
  name : String
  slug : String
  description : String
  price : ℚ
  active : Bool
  stock : ℤ
  sortOrder : ℤ
  packageSize : Option String
  pdfUrl : Option String
  imageUrl : Option String
  visiblePrice : Option Bool
  visiblePackageSize : Option Bool
  visiblePdf : Option Bool
  visibleImages : Option Bool
  visibleDescription : Option Bool
  images : List ImageRow
  categories : List CategoryInfo
  promotions : List PromotionRec
  variants : Option (List VariantRow)
  sale : Option SaleInfo
deriving DecidableEq

/-- JavaScript truthiness of an optional numeric discount field:
`null`/`undefined` and `0` are falsy. -/
def truthyQ : Option ℚ → Bool
  | none => false
  | some x => decide (x ≠ 0)

/-- The `computeSale` filter (`src/routes/products.ts` lines 51-57):
active, window containing `now`, and at least one truthy discount. -/
def promoQualifies (now : ℚ) (pr : PromotionRec) : Bool :=
  pr.active && decide (pr.startsAt ≤ now) && decide (now ≤ pr.endsAt)
    && (truthyQ pr.percentOff || truthyQ pr.priceOff)

/-- The raw per-promotion price of the `computeSale` loop body
(`src/routes/products.ts` lines 65-67): percent discount if truthy, then
`min` with the absolute discount if truthy. -/
def rawSalePrice (base : ℚ) (pr : PromotionRec) : ℚ :=
  let p1 := if truthyQ pr.percentOff then base * (1 - pr.percentOff.getD 0 / 100) else base
  if truthyQ pr.priceOff then min p1 (base - pr.priceOff.getD 0) else p1

/-- `Math.max(0, Number(newPrice.toFixed(2)))`
(`src/routes/products.ts` line 69). -/
def clampSale (base : ℚ) (pr : PromotionRec) : ℚ :=
  max 0 (round2 (rawSalePrice base pr))

/-- The best-promotion selection loop of `computeSale`
(`src/routes/products.ts` lines 61-72). -/
def saleLoop (base : ℚ) : List PromotionRec → Option PromotionRec × ℚ → Option PromotionRec × ℚ
  | [], st => st
  | pr :: rest, (best, bestPrice) =>
      if rawSalePrice base pr < bestPrice then
        saleLoop base rest (some pr, clampSale base pr)
      else
        saleLoop base rest (best, bestPrice)

/-- Models `computeSale` (`src/routes/products.ts` lines 49-83). -/
def computeSale (now : ℚ) (p : ProductRow) : Option SaleInfo :=
  let actives := p.promotions.filter (promoQualifies now)
  if actives.isEmpty then none
  else
    match saleLoop p.price actives (none, p.price) with
    | (none, _) => none
    | (some best, bestPrice) =>
        if p.price ≤ bestPrice then none
        else
          some ⟨best.title, best.percentOff,
            if truthyQ best.priceOff then best.priceOff else none,
            best.startsAt, best.endsAt, bestPrice⟩

/-- Rounding to two decimals is monotone. -/
theorem round2_mono {a b : ℚ} (h : a ≤ b) : round2 a ≤ round2 b := by
  unfold round2
  have h1 : a * 100 + 1/2 ≤ b * 100 + 1/2 := by linarith
  have h2 := Int.floor_le_floor h1
  have h3 : ((⌊a * 100 + 1/2⌋ : ℤ) : ℚ) ≤ ((⌊b * 100 + 1/2⌋ : ℤ) : ℚ) := by
    exact_mod_cast h2
  linarith

/-- Rounding fixes integer multiples of a hundredth. -/
theorem round2_intCast_div (k : ℤ) : round2 ((k : ℚ) / 100) = (k : ℚ) / 100 := by
  unfold round2
  have h1 : (k : ℚ) / 100 * 100 + 1/2 = 1/2 + (k : ℚ) := by
    field_simp
    ring
  rw [h1, Int.floor_add_int]
  norm_num

/-- A clamped, rounded price is a fixed point of clamping and
rounding, and is non-negative. -/
theorem round2_clamp_fix (x : ℚ) :
    round2 (max 0 (round2 x)) = max 0 (round2 x) ∧ 0 ≤ max 0 (round2 x) := by
  constructor
  · rcases le_total 0 (round2 x) with h | h
    · rw [max_eq_right h]
      exact round2_intCast_div _
    · rw [max_eq_left h]
      unfold round2
      norm_num
  · exact le_max_left 0 _

theorem saleLoop_cons (base : ℚ) (pr : PromotionRec) (rest : List PromotionRec)
    (b : Option PromotionRec) (bp : ℚ) :
    saleLoop base (pr :: rest) (b, bp)
      = if rawSalePrice base pr < bp then saleLoop base rest (some pr, clampSale base pr)
        else saleLoop base rest (b, bp) := rfl

/-- Invariants of the `computeSale` selection loop: the reported price
belongs to the selected promotion, only listed promotions are selected,
and the final price is a lower bound on every listed promotion's
clamped, rounded price. -/
theorem saleLoop_spec (base : ℚ) :
    ∀ (l : List PromotionRec) (b : Option PromotionRec) (bp : ℚ),
      (b = none → bp = base) →
      (∀ pr, b = some pr → bp = clampSale base pr) →
      ((saleLoop base l (b, bp)).1 = none → (saleLoop base l (b, bp)).2 = base ∧ b = none)
      ∧ (∀ pr, (saleLoop base l (b, bp)).1 = some pr →
          (saleLoop base l (b, bp)).2 = clampSale base pr ∧ (b = some pr ∨ pr ∈ l))
      ∧ (b ≠ none → (saleLoop base l (b, bp)).2 ≤ bp)
      ∧ (b = none → (saleLoop base l (b, bp)).1 = none
          ∨ (saleLoop base l (b, bp)).2 ≤ max 0 (round2 base))
      ∧ (∀ pr ∈ l, (saleLoop base l (b, bp)).1 ≠ none →
          (saleLoop base l (b, bp)).2 ≤ clampSale base pr) := by
  intro l
  induction l with
  | nil =>
      intro b bp hb0 hbs
      refine ⟨fun h => ⟨hb0 h, h⟩, fun pr h => ⟨hbs pr h, Or.inl h⟩, fun _ => le_refl _,
        fun h => Or.inl h, by simp⟩
  | cons pr0 rest ih =>
      intro b bp hb0 hbs
      rw [saleLoop_cons]
      by_cases hlt : rawSalePrice base pr0 < bp
      · rw [if_pos hlt]
        obtain ⟨ih1, ih2, ih3, ih4, ih5⟩ := ih (some pr0) (clampSale base pr0)
          (by intro h; cases h) (by intro pr h; cases h; rfl)
        refine ⟨?_, ?_, ?_, ?_, ?_⟩
        · intro h
          exact absurd (ih1 h).2 (by simp)
        · intro pr h
          refine ⟨(ih2 pr h).1, Or.inr ?_⟩
          rcases (ih2 pr h).2 with h2 | h2
          · cases h2
            exact List.mem_cons_self _ _
          · exact List.mem_cons_of_mem _ h2
        · intro hbne
          rcases b with _ | prb
          · exact absurd rfl hbne
          · have hbp : bp = clampSale base prb := hbs prb rfl
            have h2d := round2_clamp_fix (rawSalePrice base prb)
            have hle : clampSale base pr0 ≤ bp := by
              have hr : round2 (rawSalePrice base pr0) ≤ bp := by
                calc round2 (rawSalePrice base pr0) ≤ round2 bp := round2_mono hlt.le
                  _ = bp := by rw [hbp]; exact h2d.1
              have h0 : (0 : ℚ) ≤ bp := by rw [hbp]; exact h2d.2
              exact max_le h0 hr
            exact le_trans (ih3 (by simp)) hle
        · intro hbnone
          right
          have hbase : bp = base := hb0 hbnone
          have h1 : clampSale base pr0 ≤ max 0 (round2 base) := by
            have hx := hlt.le
            rw [hbase] at hx
            exact max_le_max (le_refl 0) (round2_mono hx)
          exact le_trans (ih3 (by simp)) h1
        · intro q hq hne
          rcases List.mem_cons.mp hq with rfl | hq
          · exact ih3 (by simp)
          · exact ih5 q hq hne
      · rw [if_neg hlt]
        have hge : bp ≤ rawSalePrice base pr0 := le_of_not_lt hlt
        obtain ⟨ih1, ih2, ih3, ih4, ih5⟩ := ih b bp hb0 hbs
        refine ⟨ih1, ?_, ih3, ih4, ?_⟩
        · intro pr h
          refine ⟨(ih2 pr h).1, ?_⟩
          rcases (ih2 pr h).2 with h2 | h2
          · exact Or.inl h2
          · exact Or.inr (List.mem_cons_of_mem _ h2)
        · intro q hq hne
          rcases List.mem_cons.mp hq with rfl | hq
          · rcases b with _ | prb
            · have hbase : bp = base := hb0 rfl
              rcases ih4 rfl with h4 | h4
              · exact absurd h4 hne
              · have hmax : max 0 (round2 base) ≤ clampSale base q := by
                  have hx := hge
                  rw [hbase] at hx
                  exact max_le_max (le_refl 0) (round2_mono hx)
                exact le_trans h4 hmax
            · have hbp : bp = clampSale base prb := hbs prb rfl
              have h2d := round2_clamp_fix (rawSalePrice base prb)
              have hle : bp ≤ clampSale base q := by
                have hr : bp ≤ round2 (rawSalePrice base q) := by
                  calc bp = round2 bp := by rw [hbp]; exact (round2_clamp_fix _).1.symm
                    _ ≤ round2 (rawSalePrice base q) := round2_mono hge
                exact le_trans hr (le_max_right 0 _)
              exact le_trans (ih3 (by simp)) hle
          · exact ih5 q hq hne

/-- The percent-off example promotion of the spec (10% off). -/
def examplePercentPromo : PromotionRec :=
  ⟨"ten-percent", some 10, none, -1, 1, true⟩

/-- The price-off example promotion of the spec ($5 off). -/
def examplePricePromo : PromotionRec :=
  ⟨"five-off", none, some 5, -1, 1, true⟩

/-- The spec's example product: base price $40, both example
promotions attached. -/
def examplePromoProduct : ProductRow :=
  { id := "p1", name := "P", slug := "p", description := "", price := 40,
    active := true, stock := 0, sortOrder := 0, packageSize := none,
    pdfUrl := none, imageUrl := none, visiblePrice := none,
    visiblePackageSize := none, visiblePdf := none, visibleImages := none,
    visibleDescription := none, images := [], categories := [],
    promotions := [examplePercentPromo, examplePricePromo],
    variants := none, sale := none }

/-- The expected sale for the example: the $5-off promotion is selected
with a sale price of $35. -/
def exampleSale : SaleInfo := ⟨"five-off", none, some 5, -1, 1, 35⟩

/-- C5: the sale engine considers only active, in-window promotions
with a truthy discount; the returned sale's price is the selected
promotion's clamped rounded price, non-negative, strictly below base,
and a lower bound on the clamped rounded price of every qualifying
promotion; with no qualifying promotion the sale is `none`; and on the
spec's $40 example the $5-off promotion wins with a sale price of
$35. -/
theorem claim_compute_sale (now : ℚ) (p : ProductRow) :
    (p.promotions.filter (promoQualifies now) = [] → computeSale now p = none)
    ∧ (∀ s, computeSale now p = some s →
        0 ≤ s.salePrice ∧ s.salePrice < p.price
        ∧ ∃ pr ∈ p.promotions.filter (promoQualifies now),
            promoQualifies now pr = true
            ∧ s.salePrice = clampSale p.price pr
            ∧ s.title = pr.title ∧ s.percentOff = pr.percentOff
            ∧ s.startsAt = pr.startsAt ∧ s.endsAt = pr.endsAt
            ∧ ∀ pr2 ∈ p.promotions.filter (promoQualifies now),
                s.salePrice ≤ clampSale p.price pr2)
    ∧ computeSale 0 examplePromoProduct = some exampleSale := by
  refine ⟨?_, ?_, ?_⟩
  · intro h
    unfold computeSale
    rw [h]
    rfl
  · intro s hs
    unfold computeSale at hs
    set actives := p.promotions.filter (promoQualifies now) with hact
    by_cases hemp : actives.isEmpty
    · rw [if_pos hemp] at hs
      cases hs
    · rw [if_neg hemp] at hs
      obtain ⟨sl1, sl2, _, _, sl5⟩ :=
        saleLoop_spec p.price actives none p.price (fun _ => rfl) (by intro pr h; cases h)
      rcases hloop : saleLoop p.price actives (none, p.price) with ⟨b, bp⟩
      rw [hloop] at hs
      rcases b with _ | best
      · dsimp only at hs
        cases hs
      · dsimp only at hs
        by_cases hguard : p.price ≤ bp
        · rw [if_pos hguard] at hs
          cases hs
        · rw [if_neg hguard] at hs
          have hb2 : (saleLoop p.price actives (none, p.price)).1 = some best := by
            rw [hloop]
          have hbp2 : (saleLoop p.price actives (none, p.price)).2 = bp := by
            rw [hloop]
          obtain ⟨hval, hmem⟩ := sl2 best hb2
          have hmem2 : best ∈ actives := by
            rcases hmem with h | h
            · cases h
            · exact h
          cases hs
          refine ⟨?_, ?_, best, hmem2, ?_, ?_, rfl, rfl, rfl, rfl, ?_⟩
          · rw [← hbp2, hval]
            exact (round2_clamp_fix _).2
          · exact lt_of_not_le hguard
          · exact (List.mem_filter.mp hmem2).2
          · rw [← hbp2, hval]
          · intro pr2 hpr2
            have := sl5 pr2 hpr2 (by rw [hb2]; simp)
            rw [hbp2] at this
            exact this
  · norm_num [computeSale, examplePromoProduct, exampleSale, examplePercentPromo,
      examplePricePromo, promoQualifies, truthyQ, saleLoop, rawSalePrice,
      clampSale, round2]

/-- Witness for C5: instantiating the sale-shape conjunct at the spec's
example product and sale. -/
theorem claim_compute_sale_witness :
    0 ≤ exampleSale.salePrice ∧ exampleSale.salePrice < examplePromoProduct.price
    ∧ ∃ pr ∈ examplePromoProduct.promotions.filter (promoQualifies 0),
        promoQualifies 0 pr = true
        ∧ exampleSale.salePrice = clampSale examplePromoProduct.price pr
        ∧ exampleSale.title = pr.title ∧ exampleSale.percentOff = pr.percentOff
        ∧ exampleSale.startsAt = pr.startsAt ∧ exampleSale.endsAt = pr.endsAt
        ∧ ∀ pr2 ∈ examplePromoProduct.promotions.filter (promoQualifies 0),
            exampleSale.salePrice ≤ clampSale examplePromoProduct.price pr2 :=
  (claim_compute_sale 0 examplePromoProduct).2.1 exampleSale
    (claim_compute_sale 0 examplePromoProduct).2.2

/-! ## Product serialization and visibility flags (C4) -/

/-- A JSON value, as produced by `res.json`.  A key whose JavaScript
value is `undefined` is dropped by serialization, so "omitted" is
modelled as the absence of the key from the object list. -/
inductive JVal where
  | str : String → JVal
  | num : ℚ → JVal
  | bool : Bool → JVal
  | null : JVal
  | arr : List JVal → JVal
  | obj : List (String × JVal) → JVal

/-- Key lookup in a serialized object: `none` means the key is absent
(the field was `undefined` and got dropped). -/
def jget (key : String) : List (String × JVal) → Option JVal
  | [] => none
  | (k, v) :: rest => if k = key then some v else jget key rest

/-- A key that is present only when its value is defined (JavaScript
`undefined` drops the key). -/
def jentry (key : String) : Option JVal → List (String × JVal)
  | some v => [(key, v)]
  | none => []

/-- A nullable string as a JSON value (`null` when absent). -/
def optStrJ : Option String → JVal
  | some s => .str s
  | none => .null

/-- JavaScript `a || b` on a nullable string: the empty string is
falsy. -/
def jsOrStr (a b : Option String) : Option String :=
  match a with
  | some s => if s = "" then b else some s
  | none => b

/-- Serialization of one variant inside `serializeProduct`
(`src/routes/products.ts` lines 101-117): the price key is dropped when
hidden, `sku` is dropped when absent, `imageUrl` is nulled, and the
gallery is emptied when images are hidden. -/
def serializeVariant (showPrice showImgs : Bool) (v : VariantRow) : JVal :=
  .obj ([("id", .str v.id), ("name", .str v.name)]
    ++ jentry "price" (if showPrice then some (.num v.price) else none)
    ++ [("stock", .num (v.stock : ℚ)), ("active", .bool v.active),
        ("sortOrder", .num ((v.sortOrder.getD 0 : ℤ) : ℚ))]
    ++ jentry "sku" (v.sku.map .str)
    ++ [("imageUrl", optStrJ v.imageUrl),
        ("images", .arr (match v.images with
          | some imgs => if showImgs then imgs.map (fun im => .str im.url) else []
          | none => []))])

/-- The `sale` object rendered into JSON (`computeSale` return shape):
absent discount fields are dropped. -/
def saleToJson (s : SaleInfo) : JVal :=
  .obj ([("title", .str s.title)]
    ++ jentry "percentOff" (s.percentOff.map .num)
    ++ jentry "priceOff" (s.priceOff.map .num)
    ++ [("startsAt", .num s.startsAt), ("endsAt", .num s.endsAt),
        ("salePrice", .num s.salePrice)])

/-- The single surfaced category with its optional parent. -/
def catToJson (c : CategoryInfo) : JVal :=
  .obj [("id", .str c.id), ("name", .str c.name), ("slug", .str c.slug),
    ("parent", match c.parent with
      | some pa => .obj [("id", .str pa.id), ("name", .str pa.name), ("slug", .str pa.slug)]
      | none => .null)]

/-- Models `serializeProduct` (`src/routes/products.ts` lines 86-158).
Field order and presence follow the object literal: hidden scalar
fields become `undefined` (dropped keys), hidden images become `[]`,
hidden `imageUrl` becomes `null`, `visibility` is admin-only, and
`variants` is present only when the feature is on and the row carries
them. -/
def serializeProduct (now : ℚ) (featurePromos featureVar : Bool)
    (p : ProductRow) (isAdmin : Bool) : List (String × JVal) :=
  let firstCat := p.categories.head?
  let sale := if featurePromos then (p.sale <|> computeSale now p) else none
  let visPrice := p.visiblePrice.getD false
  let visPkg := p.visiblePackageSize.getD true
  let visPdf := p.visiblePdf.getD true
  let visImgs := p.visibleImages.getD true
  let visDesc := p.visibleDescription.getD true
  let showF := fun (flag : Bool) => isAdmin || flag
  let variantsJ : Option JVal :=
    if featureVar then
      match p.variants with
      | some vs => some (.arr (vs.map (serializeVariant (showF visPrice) (showF visImgs))))
      | none => none
    else none
  [("id", .str p.id), ("name", .str p.name), ("slug", .str p.slug)]
  ++ jentry "description" (if showF visDesc then some (.str p.description) else none)
  ++ jentry "price" (if showF visPrice then some (.num p.price) else none)
  ++ [("active", .bool p.active), ("stock", .num (p.stock : ℚ)),
      ("sortOrder", .num (p.sortOrder : ℚ))]
  ++ jentry "packageSize" (if showF visPkg then some (optStrJ p.packageSize) else none)
  ++ jentry "pdfUrl" (if showF visPdf then some (optStrJ p.pdfUrl) else none)
  ++ [("category", match firstCat with | some c => catToJson c | none => .null),
      ("images", .arr (if showF visImgs then p.images.map (fun im => .str im.url) else [])),
      ("imageUrl", optStrJ (if showF visImgs
        then jsOrStr (p.images.head?.map (·.url)) (jsOrStr p.imageUrl none) else none))]
  ++ jentry "sale" (sale.map saleToJson)
  ++ jentry "visibility" (if isAdmin then
      some (.obj [("price", .bool visPrice), ("packageSize", .bool visPkg),
        ("pdf", .bool visPdf), ("images", .bool visImgs), ("description", .bool visDesc)])
      else none)
  ++ jentry "variants" variantsJ

theorem jget_append (key : String) (l1 l2 : List (String × JVal)) :
    jget key (l1 ++ l2) = (jget key l1).or (jget key l2) := by
  induction l1 with
  | nil => simp [jget]
  | cons kv rest ih =>
      rcases kv with ⟨k, v⟩
      by_cases hk : k = key
      · simp [jget, hk]
      · simp [jget, hk, ih]

theorem jget_jentry (key k2 : String) (o : Option JVal) :
    jget key (jentry k2 o) = if k2 = key then o else none := by
  cases o with
  | none => simp [jentry, jget]
  | some v =>
      by_cases hk : k2 = key <;> simp [jentry, jget, hk]

/-- A product with hidden images but a non-empty gallery, used to
separate "omitted key" from "present-but-empty key". -/
def exampleHiddenImagesProduct : ProductRow :=
  { id := "p2", name := "Q", slug := "q", description := "d", price := 10,
    active := true, stock := 0, sortOrder := 0, packageSize := none,
    pdfUrl := none, imageUrl := none, visiblePrice := some true,
    visiblePackageSize := some true, visiblePdf := some true,
    visibleImages := some false, visibleDescription := some true,
    images := [⟨"u1", 10⟩], categories := [], promotions := [],
    variants := none, sale := none }

/-- C4 counterexample: with `visibleImages = false` and a non-empty
gallery, the non-admin serialization still carries the `images` key —
with value `[]` — instead of omitting it entirely, so the claim's
"omitted from the output entirely" is false for the `images` field. -/
theorem claim_visibility_counterexample :
    exampleHiddenImagesProduct.visibleImages = some false
    ∧ exampleHiddenImagesProduct.images ≠ []
    ∧ jget "images" (serializeProduct 0 false false exampleHiddenImagesProduct false)
        = some (JVal.arr []) := by
  refine ⟨rfl, by decide, ?_⟩
  simp +decide [serializeProduct, exampleHiddenImagesProduct, jget_append, jget_jentry, jget]

/-- C4 (amended): for a non-admin caller the scalar fields
price/description/packageSize/pdfUrl are omitted (key absent) exactly
when their flag is false, while hidden `images` is serialized as a
present key holding the empty array; the `visibility` object is absent.
For an admin caller every field is always included regardless of flags,
and `visibility` reflects the flags' true (defaulted) values. -/
theorem claim_visibility_serialization (now : ℚ) (fp fv : Bool) (p : ProductRow) :
    (jget "price" (serializeProduct now fp fv p false)
        = if p.visiblePrice.getD false then some (JVal.num p.price) else none)
    ∧ (jget "description" (serializeProduct now fp fv p false)
        = if p.visibleDescription.getD true then some (JVal.str p.description) else none)
    ∧ (jget "packageSize" (serializeProduct now fp fv p false)
        = if p.visiblePackageSize.getD true then some (optStrJ p.packageSize) else none)
    ∧ (jget "pdfUrl" (serializeProduct now fp fv p false)
        = if p.visiblePdf.getD true then some (optStrJ p.pdfUrl) else none)
    ∧ (jget "images" (serializeProduct now fp fv p false)
        = some (.arr (if p.visibleImages.getD true
            then p.images.map (fun im => .str im.url) else [])))
    ∧ (jget "visibility" (serializeProduct now fp fv p false) = none)
    ∧ (jget "price" (serializeProduct now fp fv p true) = some (JVal.num p.price))
    ∧ (jget "description" (serializeProduct now fp fv p true) = some (JVal.str p.description))
    ∧ (jget "packageSize" (serializeProduct now fp fv p true) = some (optStrJ p.packageSize))
    ∧ (jget "pdfUrl" (serializeProduct now fp fv p true) = some (optStrJ p.pdfUrl))
    ∧ (jget "images" (serializeProduct now fp fv p true)
        = some (.arr (p.images.map (fun im => .str im.url))))
    ∧ (jget "visibility" (serializeProduct now fp fv p true)
        = some (.obj [("price", .bool (p.visiblePrice.getD false)),
            ("packageSize", .bool (p.visiblePackageSize.getD true)),
            ("pdf", .bool (p.visiblePdf.getD true)),
            ("images", .bool (p.visibleImages.getD true)),
            ("description", .bool (p.visibleDescription.getD true))])) := by
  refine ⟨?_, ?_, ?_, ?_, ?_, ?_, ?_, ?_, ?_, ?_, ?_, ?_⟩ <;>
    simp +decide [serializeProduct, jget_append, jget_jentry, jget]

/-! ## Order creation: hydration, upsert, transaction (C2, C3, C7) -/

/-- A customer row.  Fresh ids are modelled as the table length at
creation time. -/
structure CustomerRow where
  id : ℕ
  email : String
  name : String
  phone : Option String
  company : Option String
  marketingOptIn : Bool
deriving DecidableEq

/-- An address row. -/
structure AddressRow where
  id : ℕ
  customerId : ℕ
  line1 : String
  line2 : Option String
  district : Option String
  city : String
  state : Option String
  postalCode : Option String
  country : String
deriving DecidableEq

/-- A persisted order item row. -/
structure OrderItemRow where
  productId : String
  quantity : ℕ
  unitPrice : ℚ
  variantId : Option String
  variantName : Option String
deriving DecidableEq

/-- A persisted order-inquiry row with its nested items. -/
structure OrderRow where
  id : ℕ
  customerId : ℕ
  addressId : Option ℕ
  status : OrderStatus
  note : Option String
  recurrence : Option String
  customerName : String
  customerEmail : String
  customerPhone : Option String
  subtotal : ℚ
  total : ℚ
  currency : String
  items : List OrderItemRow
deriving DecidableEq

/-- The database state touched by order creation. -/
structure DbState where
  variants : List VariantRow
  products : List ProductRow
  promotions : List PromotionRec
  customers : List CustomerRow
  addresses : List AddressRow
  orders : List OrderRow
deriving DecidableEq

/-- A submitted line item after zod parsing. -/
structure InputItem where
  productId : String
  quantity : ℕ
  unitPrice : Option ℚ
  variantId : Option String
  variantName : Option String
deriving DecidableEq

/-- The submitted customer block after zod parsing (marketingOptIn is
defaulted to false by the schema). -/
structure InputCustomer where
  name : String
  email : String
  phone : Option String
  marketingOptIn : Bool
  company : Option String
deriving DecidableEq

/-- The submitted address block after zod parsing (country defaulted to
"US" by the schema). -/
structure InputAddress where
  line1 : String
  line2 : Option String
  district : Option String
  city : String
  state : Option String
  postalCode : Option String
  country : String
deriving DecidableEq

/-- The parsed body of `orders.post("/")`. -/
structure OrderBody where
  customer : InputCustomer
  address : Option InputAddress
  items : List InputItem
  note : Option String
  recurrence : Option String
deriving DecidableEq

/-- The error class thrown by price hydration
(`code: "VARIANT_NOT_FOUND"`). -/
inductive CreateError where
  | variantNotFound
deriving DecidableEq

/-- `variantDelegate.findUnique({ where: { id } })`. -/
def findVariant (db : DbState) (vid : String) : Option VariantRow :=
  db.variants.find? (fun v => v.id == vid)

/-- Models the per-item hydration closure of `orders.post("/")`
(`src/routes/orders.ts` lines 295-323): without a variant id the price
defaults to 0; with one, the variant is loaded (throwing
VARIANT_NOT_FOUND when missing) and its price and name are used as
fallbacks.  The variant delegate is present in this schema. -/
def hydrateItem (db : DbState) (it : InputItem) : Except CreateError OrderItemRow :=
  match it.variantId with
  | none => .ok ⟨it.productId, it.quantity, it.unitPrice.getD 0, none, it.variantName⟩
  | some vid =>
      match findVariant db vid with
      | none => .error .variantNotFound
      | some v => .ok ⟨it.productId, it.quantity, it.unitPrice.getD v.price, some vid,
          it.variantName.orElse (fun _ => some v.name)⟩

/-- Hydration of the whole item list (`Promise.all` over the map,
failing when any single item fails). -/
def hydrateItems (db : DbState) : List InputItem → Except CreateError (List OrderItemRow)
  | [] => .ok []
  | it :: rest =>
      match hydrateItem db it with
      | .error e => .error e
      | .ok h =>
          match hydrateItems db rest with
          | .error e => .error e
          | .ok hs => .ok (h :: hs)

/-- Models `tx.customer.upsert` keyed on the submitted email, compared
verbatim (`src/routes/orders.ts` lines 328-343): an existing row keeps
its id and email and is updated (phone/company only when provided), a
missing one is created with the submitted fields. -/
def upsertCustomer (customers : List CustomerRow) (c : InputCustomer) :
    List CustomerRow × CustomerRow :=
  match customers.find? (fun r => r.email == c.email) with
  | some r =>
      let updated : CustomerRow :=
        { r with
            name := c.name,
            phone := c.phone.orElse (fun _ => r.phone),
            company := c.company.orElse (fun _ => r.company),
            marketingOptIn := c.marketingOptIn }
      (customers.map (fun x => if x.email == c.email then updated else x), updated)
  | none =>
      let created : CustomerRow :=
        ⟨customers.length, c.email, c.name, c.phone, c.company, c.marketingOptIn⟩
      (customers ++ [created], created)

/-- Models `orders.post("/")` (`src/routes/orders.ts` lines 292-400):
price hydration runs first and aborts with no writes on a missing
variant; then, atomically, the customer upsert, the optional address
creation, and the order creation with its nested items.  The Prisma
`$transaction` is modelled as a single pure state update. -/
def createOrder (db : DbState) (body : OrderBody) :
    DbState × Except CreateError OrderRow :=
  match hydrateItems db body.items with
  | .error e => (db, .error e)
  | .ok hydrated =>
      let totals := calcTotals (hydrated.map (fun it => ⟨it.quantity, some it.unitPrice⟩))
      let up := upsertCustomer db.customers body.customer
      let cust := up.2
      let addrResult : List AddressRow × Option ℕ :=
        match body.address with
        | some a =>
            (db.addresses ++ [⟨db.addresses.length, cust.id, a.line1, a.line2,
              a.district, a.city, a.state, a.postalCode, a.country⟩],
             some db.addresses.length)
        | none => (db.addresses, none)
      let order : OrderRow :=
        ⟨db.orders.length, cust.id, addrResult.2, .received, body.note, body.recurrence,
          cust.name, cust.email, cust.phone, totals.1, totals.2, "USD", hydrated⟩
      ({ db with
            customers := up.1,
            addresses := addrResult.1,
            orders := db.orders ++ [order] }, .ok order)

theorem hydrateItem_missing_variant (db : DbState) (it : InputItem) (vid : String)
    (h1 : it.variantId = some vid) (h2 : findVariant db vid = none) :
    hydrateItem db it = .error .variantNotFound := by
  simp only [hydrateItem, h1, h2]

theorem hydrateItems_error_of_mem (db : DbState) (items : List InputItem)
    (it : InputItem) (hmem : it ∈ items)
    (herr : hydrateItem db it = .error .variantNotFound) :
    hydrateItems db items = .error .variantNotFound := by
  induction items with
  | nil => cases hmem
  | cons x xs ih =>
      rcases List.mem_cons.mp hmem with rfl | hmem2
      · simp [hydrateItems, herr]
      · cases hx : hydrateItem db x with
        | error e =>
            cases e
            simp [hydrateItems, hx]
        | ok h => simp [hydrateItems, hx, ih hmem2]

theorem hydrateItems_ok_length (db : DbState) :
    ∀ (items : List InputItem) (hs : List OrderItemRow),
      hydrateItems db items = .ok hs → hs.length = items.length := by
  intro items
  induction items with
  | nil =>
      intro hs h
      simp only [hydrateItems] at h
      cases h
      rfl
  | cons x xs ih =>
      intro hs h
      simp only [hydrateItems] at h
      cases hx : hydrateItem db x with
      | error e => rw [hx] at h; cases h
      | ok h1 =>
          rw [hx] at h
          cases hxs : hydrateItems db xs with
          | error e => rw [hxs] at h; cases h
          | ok hs2 =>
              rw [hxs] at h
              cases h
              simp [ih hs2 hxs]

/-- C3: an order submission containing an item whose variantId does not
resolve fails with the VariantNotFound error and leaves the state
untouched (hydration runs before the transaction); any error leaves
the state untouched; on success the customer upsert, optional address
creation, and order creation with all its items are all visible
together in the new state. -/
theorem claim_create_order_atomic (db : DbState) (body : OrderBody) :
    ((∃ it ∈ body.items, ∃ vid, it.variantId = some vid ∧ findVariant db vid = none) →
      createOrder db body = (db, .error .variantNotFound))
    ∧ (∀ db2 e, createOrder db body = (db2, .error e) → db2 = db)
    ∧ (∀ db2 o, createOrder db body = (db2, .ok o) →
        db2.orders = db.orders ++ [o]
        ∧ o.items.length = body.items.length
        ∧ o.status = .received
        ∧ db2.customers = (upsertCustomer db.customers body.customer).1
        ∧ (body.address = none → db2.addresses = db.addresses ∧ o.addressId = none)
        ∧ (∀ a, body.address = some a →
            db2.addresses.length = db.addresses.length + 1
            ∧ o.addressId = some db.addresses.length)
        ∧ db2.variants = db.variants ∧ db2.products = db.products) := by
  refine ⟨?_, ?_, ?_⟩
  · rintro ⟨it, hmem, vid, h1, h2⟩
    have herr := hydrateItems_error_of_mem db body.items it hmem
      (hydrateItem_missing_variant db it vid h1 h2)
    unfold createOrder
    rw [herr]
  · intro db2 e h
    unfold createOrder at h
    cases hhyd : hydrateItems db body.items with
    | error e2 =>
        rw [hhyd] at h
        injection h with h1 h2
        exact h1.symm
    | ok hy =>
        rw [hhyd] at h
        injection h with h1 h2
        exact Except.noConfusion h2
  · intro db2 o h
    unfold createOrder at h
    cases hhyd : hydrateItems db body.items with
    | error e2 =>
        rw [hhyd] at h
        injection h with h1 h2
        exact Except.noConfusion h2
    | ok hy =>
        rw [hhyd] at h
        injection h with h1 h2
        injection h2 with h2
        subst h1
        subst h2
        refine ⟨rfl, hydrateItems_ok_length db body.items hy hhyd, rfl, rfl, ?_, ?_, rfl, rfl⟩
        · intro haddr
          rw [haddr]
          exact ⟨rfl, rfl⟩
        · intro a haddr
          rw [haddr]
          simp

/-- The concrete database for the hydration examples: one variant
`v1` priced 7, one product `p1` with stored price 10. -/
def hydrationExampleDb : DbState :=
  ⟨[⟨"v1", "Size L", 7, 3, true, none, none, none, none⟩],
   [{ id := "p1", name := "W", slug := "w", description := "", price := 10,
      active := true, stock := 5, sortOrder := 0, packageSize := none,
      pdfUrl := none, imageUrl := none, visiblePrice := none,
      visiblePackageSize := none, visiblePdf := none, visibleImages := none,
      visibleDescription := none, images := [], categories := [], promotions := [],
      variants := none, sale := none }],
   [], [], [], []⟩

/-- The order body of the hydration counterexample: a single item for
product `p1`, no variant, no unit price. -/
def hydrationExampleBody : OrderBody :=
  ⟨⟨"Jane", "jane@x.com", none, false, none⟩, none,
    [⟨"p1", 1, none, none, none⟩], none, none⟩

/-- C2 counterexample: the item omits unitPrice and references no
variant; the referenced product's stored price is 10, yet the persisted
OrderItem's unitPrice is 0 — the claimed product-price fallback does
not exist in the code. -/
theorem claim_price_hydration_counterexample :
    hydrationExampleDb.products.map (fun pr => (pr.id, pr.price)) = [("p1", 10)]
    ∧ (createOrder hydrationExampleDb hydrationExampleBody).2
        = .ok ⟨0, 0, none, .received, none, none, "Jane", "jane@x.com", none, 0, 0,
            "USD", [⟨"p1", 1, 0, none, none⟩]⟩
    ∧ (0 : ℚ) ≠ 10 := by
  refine ⟨by norm_num [hydrationExampleDb], ?_, by norm_num⟩
  norm_num [createOrder, hydrationExampleDb, hydrationExampleBody, hydrateItems,
    hydrateItem, upsertCustomer, calcTotals, asNum, round2, List.find?]

/-- C2 (amended): a line item omitting unitPrice is backfilled with the
referenced variant's stored price when a variant is referenced and
exists, with 0 — not the product's stored price — when no variant is
referenced, and fails when the referenced variant is missing; the
backfill never reads promotions. -/
theorem claim_price_hydration (db : DbState) (it : InputItem)
    (hprice : it.unitPrice = none) :
    (it.variantId = none →
      hydrateItem db it = .ok ⟨it.productId, it.quantity, 0, none, it.variantName⟩)
    ∧ (∀ vid v, it.variantId = some vid → findVariant db vid = some v →
        hydrateItem db it = .ok ⟨it.productId, it.quantity, v.price, some vid,
          it.variantName.orElse (fun _ => some v.name)⟩)
    ∧ (∀ vid, it.variantId = some vid → findVariant db vid = none →
        hydrateItem db it = .error .variantNotFound)
    ∧ (∀ promos, hydrateItem { db with promotions := promos } it = hydrateItem db it) := by
  refine ⟨?_, ?_, ?_, ?_⟩
  · intro hv
    simp [hydrateItem, hv, hprice]
  · intro vid v hv hfind
    simp [hydrateItem, hv, hfind, hprice]
  · intro vid hv hfind
    exact hydrateItem_missing_variant db it vid hv hfind
  · intro promos
    rfl

/-- Witness for C2 (amended): variant-backed backfill takes the stored
variant price 7 and name; variant-free backfill takes 0. -/
theorem claim_price_hydration_witness :
    hydrateItem hydrationExampleDb ⟨"p1", 2, none, some "v1", none⟩
        = .ok ⟨"p1", 2, 7, some "v1", some "Size L"⟩
    ∧ hydrateItem hydrationExampleDb ⟨"p1", 2, none, none, none⟩
        = .ok ⟨"p1", 2, 0, none, none⟩ := by
  have h1 := claim_price_hydration hydrationExampleDb ⟨"p1", 2, none, some "v1", none⟩ rfl
  have h2 := claim_price_hydration hydrationExampleDb ⟨"p1", 2, none, none, none⟩ rfl
  exact ⟨h1.2.1 "v1" ⟨"v1", "Size L", 7, 3, true, none, none, none, none⟩ rfl rfl,
    h2.1 rfl⟩

/-- Witness for C3: the valid-variant body commits (customer, order,
items together), and the same body with a dangling variantId fails with
VariantNotFound leaving the state unchanged. -/
theorem claim_create_order_atomic_witness :
    createOrder hydrationExampleDb
        ⟨⟨"Jane", "jane@x.com", none, false, none⟩, none,
          [⟨"p1", 1, none, some "zzz", none⟩], none, none⟩
      = (hydrationExampleDb, .error .variantNotFound)
    ∧ ((createOrder hydrationExampleDb hydrationExampleBody).1).orders.length
        = hydrationExampleDb.orders.length + 1 := by
  constructor
  · exact (claim_create_order_atomic hydrationExampleDb _).1
      ⟨⟨"p1", 1, none, some "zzz", none⟩, by simp, "zzz", rfl, by rfl⟩
  · norm_num [createOrder, hydrationExampleDb, hydrationExampleBody, hydrateItems,
      hydrateItem, upsertCustomer, calcTotals, asNum, round2]

/-- In-place replacement of the rows matching an email keeps the found
row found, now updated. -/
theorem find?_map_update (e : String) (r2 : CustomerRow) (hr : r2.email = e) :
    ∀ (l : List CustomerRow) (r : CustomerRow),
      l.find? (fun x => x.email == e) = some r →
      (l.map (fun x => if x.email == e then r2 else x)).find? (fun x => x.email == e)
        = some r2 := by
  intro l
  induction l with
  | nil => intro r h; cases h
  | cons x xs ih =>
      intro r h
      by_cases hx : (x.email == e) = true
      · simp only [List.map_cons, if_pos hx]
        have : (r2.email == e) = true := by simp [hr]
        simp [this]
      · rw [List.find?_cons_of_neg _ (by simp [hx])] at h
        simp only [List.map_cons, if_neg hx]
        rw [List.find?_cons_of_neg _ (by simp [hx])]
        exact ih r h

/-- The empty database. -/
def emptyDb : DbState := ⟨[], [], [], [], [], []⟩

/-- An order submission whose customer email has an upper-case
letter. -/
def upperCaseBody : OrderBody :=
  ⟨⟨"Jane", "A@x.com", none, false, none⟩, none,
    [⟨"p1", 1, some 5, none, none⟩], none, none⟩

/-- The same submission with the email lower-cased. -/
def lowerCaseBody : OrderBody :=
  ⟨⟨"Jane", "a@x.com", none, false, none⟩, none,
    [⟨"p1", 1, some 5, none, none⟩], none, none⟩

/-- C7 counterexample: two submissions whose emails differ only in
letter case create two distinct Customer rows — the code never
lower-cases the email before the upsert, so they do not resolve to the
same row. -/
theorem claim_email_case_counterexample :
    (((createOrder (createOrder emptyDb upperCaseBody).1 lowerCaseBody).1).customers.map
        (fun r => r.email)) = ["A@x.com", "a@x.com"]
    ∧ "A@x.com" ≠ "a@x.com" := by
  constructor
  · simp +decide [createOrder, emptyDb, upperCaseBody, lowerCaseBody, hydrateItems,
      hydrateItem, upsertCustomer]
  · decide

/-- C7 (amended): the customer upsert compares the submitted email
verbatim (no lower-casing): a missing email creates a row with the
submitted fields, an existing one keeps its id and email and has
name/phone/company/marketingOptIn updated (phone and company only when
provided), and two submissions with the identical email string resolve
to the same Customer row. -/
theorem claim_customer_upsert (customers : List CustomerRow) (c1 c2 : InputCustomer) :
    (customers.find? (fun r => r.email == c1.email) = none →
      (upsertCustomer customers c1).1
          = customers ++ [⟨customers.length, c1.email, c1.name, c1.phone, c1.company,
              c1.marketingOptIn⟩]
      ∧ (upsertCustomer customers c1).2
          = ⟨customers.length, c1.email, c1.name, c1.phone, c1.company,
              c1.marketingOptIn⟩)
    ∧ (∀ r, customers.find? (fun r2 => r2.email == c1.email) = some r →
        (upsertCustomer customers c1).1.length = customers.length
        ∧ (upsertCustomer customers c1).2.id = r.id
        ∧ (upsertCustomer customers c1).2.email = r.email
        ∧ (upsertCustomer customers c1).2.name = c1.name
        ∧ (upsertCustomer customers c1).2.phone = c1.phone.orElse (fun _ => r.phone)
        ∧ (upsertCustomer customers c1).2.company = c1.company.orElse (fun _ => r.company)
        ∧ (upsertCustomer customers c1).2.marketingOptIn = c1.marketingOptIn)
    ∧ (c1.email = c2.email →
        (upsertCustomer (upsertCustomer customers c1).1 c2).2.id
          = (upsertCustomer customers c1).2.id) := by
  refine ⟨?_, ?_, ?_⟩
  · intro hfind
    simp [upsertCustomer, hfind]
  · intro r hfind
    simp [upsertCustomer, hfind]
  · intro he
    cases hfind : customers.find? (fun r2 => r2.email == c1.email) with
    | none =>
        simp only [upsertCustomer, hfind]
        have hf2 : (customers ++ [(⟨customers.length, c1.email, c1.name, c1.phone,
            c1.company, c1.marketingOptIn⟩ : CustomerRow)]).find?
              (fun r2 => r2.email == c2.email)
            = some ⟨customers.length, c1.email, c1.name, c1.phone, c1.company,
                c1.marketingOptIn⟩ := by
          rw [List.find?_append]
          have h1 : customers.find? (fun r2 => r2.email == c2.email) = none := by
            rw [← he]
            exact hfind
          rw [h1]
          simp [he]
        simp only [hf2]
    | some r =>
        simp only [upsertCustomer, hfind]
        have hre : r.email = c1.email := by
          have := List.find?_some hfind
          simpa using this
        have hf2 := find?_map_update c1.email
          ({ r with
              name := c1.name,
              phone := c1.phone.orElse (fun _ => r.phone),
              company := c1.company.orElse (fun _ => r.company),
              marketingOptIn := c1.marketingOptIn }) hre customers r hfind
        rw [← he]
        simp only [hf2]

/-- Witness for C7 (amended): creating `a@x.com` into an empty table
then upserting the identical email again resolves to the same row
id. -/
theorem claim_customer_upsert_witness :
    ((upsertCustomer [] ⟨"Jane", "a@x.com", none, false, none⟩).1
        = [⟨0, "a@x.com", "Jane", none, none, false⟩]
      ∧ (upsertCustomer [] ⟨"Jane", "a@x.com", none, false, none⟩).2
        = ⟨0, "a@x.com", "Jane", none, none, false⟩)
    ∧ (upsertCustomer (upsertCustomer [] ⟨"Jane", "a@x.com", none, false, none⟩).1
          ⟨"Janet", "a@x.com", some "555", true, none⟩).2.id
        = (upsertCustomer [] ⟨"Jane", "a@x.com", none, false, none⟩).2.id := by
  have h := claim_customer_upsert [] ⟨"Jane", "a@x.com", none, false, none⟩
    ⟨"Janet", "a@x.com", some "555", true, none⟩
  exact ⟨h.1 rfl, h.2.2 rfl⟩

/-! ## Admin authorization middleware (C8) -/

/-- The decoded JWT payload shape accepted by `requireAuth`
(`src/unnamed/part_003` lines 4-9). -/
structure TokenPayload where
  sub : Option String
  uid : Option String
  email : Option String
  role : Option String
deriving DecidableEq

/-- The outcome of the admin middleware chain: 401, 403, or pass. -/
inductive AuthDecision where
  | unauthorized
  | forbidden
  | allowed
deriving DecidableEq

/-- A user row as stored in the `User` table (id, email, name, role). -/
structure UserRow where
  id : String
  email : String
  name : String
  role : String
deriving DecidableEq

/-- Models `requireAuth` (`src/unnamed/part_003` lines 11-30): a
missing/invalid token (`none`) is rejected; otherwise the request user
is the token's subject (or legacy uid) with the token's embedded role,
defaulted to USER. -/
def requireAuthUser (tok : Option TokenPayload) : Option (String × String) :=
  match tok with
  | none => none
  | some p =>
      match p.sub.orElse (fun _ => p.uid) with
      | none => none
      | some id => some (id, p.role.getD "USER")

/-- Models `requireAdmin` (`src/unnamed/part_003` lines 32-39): run
`requireAuth`, then compare the request user's role — taken from the
token — against the literal ADMIN. -/
def requireAdminDecision (tok : Option TokenPayload) : AuthDecision :=
  match requireAuthUser tok with
  | none => .unauthorized
  | some (_, role) => if role = "ADMIN" then .allowed else .forbidden

/-- The role a database lookup by user id would report
(`prisma.user.findUnique({ where: { id } })`, as `/auth/me` does). -/
def dbRole (users : List UserRow) (uid : String) : Option String :=
  (users.find? (fun u => u.id == uid)).map (fun u => u.role)

/-- The admin gate as invoked on a request: the middleware has ambient
database access, but its decision procedure never queries it — the
outcome is computed from the token alone. -/
def adminCheckWithDb (users : List UserRow) (tok : Option TokenPayload) : AuthDecision :=
  requireAdminDecision tok

/-- The bearer token of the C8 example: subject `u1`, embedded role
ADMIN. -/
def adminToken : Option TokenPayload :=
  some ⟨some "u1", none, some "admin@x.com", some "ADMIN"⟩

/-- A user table in which `u1` still holds the ADMIN role. -/
def usersAdmin : List UserRow := [⟨"u1", "admin@x.com", "Root", "ADMIN"⟩]

/-- A user table in which `u1`'s role has been revoked to USER. -/
def usersRevoked : List UserRow := [⟨"u1", "admin@x.com", "Root", "USER"⟩]

/-- C8 counterexample: the same syntactically valid admin token is
accepted against two databases whose stored roles for the user differ —
including the one where the role was revoked — so the authorization
decision does not re-verify the role against the database and a revoked
role is not rejected. -/
theorem claim_admin_db_recheck_counterexample :
    dbRole usersAdmin "u1" = some "ADMIN"
    ∧ dbRole usersRevoked "u1" = some "USER"
    ∧ dbRole usersAdmin "u1" ≠ dbRole usersRevoked "u1"
    ∧ adminCheckWithDb usersAdmin adminToken = .allowed
    ∧ adminCheckWithDb usersRevoked adminToken = .allowed
    ∧ adminCheckWithDb usersAdmin adminToken = adminCheckWithDb usersRevoked adminToken := by
  refine ⟨rfl, rfl, by decide, rfl, rfl, rfl⟩

/-- C8 (amended): the authorization decision of the admin middleware is
a function of the bearer token alone — it is unchanged under any change
of the user table, and it allows exactly the tokens that carry a
subject (or legacy uid) and whose embedded role is ADMIN; database
role revocations therefore do not affect the outcome while the token
is valid. -/
theorem claim_admin_token_only (users users2 : List UserRow) (tok : Option TokenPayload) :
    adminCheckWithDb users tok = adminCheckWithDb users2 tok
    ∧ (adminCheckWithDb users tok = .allowed ↔
        ∃ p, tok = some p ∧ (p.sub.orElse (fun _ => p.uid)).isSome
          ∧ p.role.getD "USER" = "ADMIN") := by
  refine ⟨rfl, ?_⟩
  unfold adminCheckWithDb requireAdminDecision requireAuthUser
  cases tok with
  | none => simp
  | some p =>
      cases hsu : p.sub.orElse (fun _ => p.uid) with
      | none => simp [hsu]
      | some id =>
          by_cases hrole : p.role.getD "USER" = "ADMIN"
          · simp [hsu, hrole]
          · simp [hsu, hrole]

/-- Witness for C8 (amended): the revoked-role table still allows the
admin token, by the token-only characterization. -/
theorem claim_admin_token_only_witness :
    adminCheckWithDb usersRevoked adminToken = .allowed :=
  (claim_admin_token_only usersRevoked usersAdmin adminToken).2.mpr
    ⟨⟨some "u1", none, some "admin@x.com", some "ADMIN"⟩, rfl, rfl, rfl⟩

/-! ## CSV export (C10) -/

/-- The characters that force CSV quoting (`/[",\n]/`). -/
def needsQuote (c : Char) : Bool := c = '"' || c = ',' || c = '\n'

/-- Doubling of inner quotes (`str.replace(/"/g, '""')`). -/
def doubleQuotes : List Char → List Char
  | [] => []
  | c :: cs => if c = '"' then '"' :: '"' :: doubleQuotes cs else c :: doubleQuotes cs

/-- Models `csvEscape` (`src/routes/orders.ts` lines 174-178): a field
containing a quote, comma or newline is wrapped in quotes with inner
quotes doubled; any other field passes through. -/
def csvEscape (s : String) : String :=
  if s.data.any needsQuote then ⟨'"' :: (doubleQuotes s.data ++ ['"'])⟩ else s

/-- Inverse of quote doubling. -/
def undoubleQuotes : List Char → List Char
  | [] => []
  | [c] => [c]
  | c :: d :: rest =>
      if c = '"' ∧ d = '"' then '"' :: undoubleQuotes rest
      else c :: undoubleQuotes (d :: rest)

/-- A CSV field parser inverting `csvEscape`: a quoted field is
unwrapped and its doubled quotes collapsed. -/
def csvUnescape (s : String) : String :=
  match s.data with
  | '"' :: rest => ⟨undoubleQuotes rest.dropLast⟩
  | _ => s

/-- JavaScript `o || d` on an optional string field: null, undefined
and the empty string fall back to the default. -/
def jsOrD (o : Option String) (d : String) : String :=
  match o with
  | some s => if s = "" then d else s
  | none => d

/-- Two-digit zero padding. -/
def pad2 (n : ℕ) : String := if n < 10 then "0" ++ toString n else toString n

/-- Models `x.toFixed(2)` on an exact rational: half-up rounding to a
hundredth, rendered with two decimal digits. -/
def toFixed2 (q : ℚ) : String :=
  let m : ℤ := ⌊q * 100 + 1/2⌋
  if m < 0 then "-" ++ toString ((-m) / 100) ++ "." ++ pad2 ((-m) % 100).toNat
  else toString (m / 100) ++ "." ++ pad2 (m % 100).toNat

/-- The customer relation as joined into the export. -/
structure CsvCustomer where
  name : String
  email : String
  phone : Option String
  company : Option String
deriving DecidableEq

/-- The address relation as joined into the export. -/
structure CsvAddress where
  line1 : String
  line2 : Option String
  district : Option String
  city : String
  state : Option String
  postalCode : Option String
  country : String
deriving DecidableEq

/-- An order item as joined into the export (product name, variant
name and sku through their relations). -/
structure CsvItem where
  productName : Option String
  variantName : Option String
  sku : Option String
  quantity : ℕ
  unitPrice : Option ℚ
deriving DecidableEq

/-- An order as loaded by the export query. -/
structure CsvOrder where
  id : String
  createdAt : String
  status : String
  customer : Option CsvCustomer
  address : Option CsvAddress
  note : Option String
  recurrence : Option String
  subtotal : Option ℚ
  total : Option ℚ
  currency : Option String
  items : List CsvItem
deriving DecidableEq

/-- The fixed header row (`src/routes/orders.ts` lines 547-573). -/
def csvHeader : List String :=
  ["order_id", "created_at", "status", "customer_name", "customer_email",
   "customer_phone", "company", "addr_line1", "addr_line2", "district", "city",
   "state", "postal_code", "country", "note", "recurrence", "subtotal", "total",
   "currency", "item_product", "item_variant", "item_sku", "item_qty",
   "item_unit", "item_line_total"]

/-- The 19 order-level fields shared verbatim by the placeholder row
and every per-item row (`src/routes/orders.ts` lines 580-599 and
617-636). -/
def orderBaseFields (o : CsvOrder) : List String :=
  [o.id, o.createdAt, o.status,
   jsOrD (o.customer.map (fun c => c.name)) "",
   jsOrD (o.customer.map (fun c => c.email)) "",
   jsOrD (o.customer.bind (fun c => c.phone)) "",
   jsOrD (o.customer.bind (fun c => c.company)) "",
   jsOrD (o.address.map (fun a => a.line1)) "",
   jsOrD (o.address.bind (fun a => a.line2)) "",
   jsOrD (o.address.bind (fun a => a.district)) "",
   jsOrD (o.address.map (fun a => a.city)) "",
   jsOrD (o.address.bind (fun a => a.state)) "",
   jsOrD (o.address.bind (fun a => a.postalCode)) "",
   jsOrD (o.address.map (fun a => a.country)) "",
   jsOrD o.note "", jsOrD o.recurrence "",
   toFixed2 (asNum o.subtotal), toFixed2 (asNum o.total),
   jsOrD o.currency "USD"]

/-- The placeholder row emitted for an order with no items
(`src/routes/orders.ts` lines 578-611): empty item columns, quantity
"0", unit and line total "0.00". -/
def placeholderRow (o : CsvOrder) : List String :=
  orderBaseFields o ++ ["", "", "", "0", "0.00", "0.00"]

/-- One row per item (`src/routes/orders.ts` lines 613-647). -/
def itemRow (o : CsvOrder) (it : CsvItem) : List String :=
  orderBaseFields o
    ++ [jsOrD it.productName "", jsOrD it.variantName "", jsOrD it.sku "",
        toString it.quantity, toFixed2 (asNum it.unitPrice),
        toFixed2 (asNum it.unitPrice * it.quantity)]

/-- The data rows an order contributes. -/
def orderRows (o : CsvOrder) : List (List String) :=
  if o.items.isEmpty then [placeholderRow o] else o.items.map (itemRow o)

/-- A row rendered to a line: each field escaped, joined by commas. -/
def rowString (fields : List String) : String :=
  String.intercalate "," (fields.map csvEscape)

/-- `rows.join("\n")` where the header line is the first element. -/
def csvJoin (rows : List String) : String :=
  rows.foldl (fun acc r => acc ++ "\n" ++ r) (String.intercalate "," csvHeader)

/-- Models the full export body (`src/routes/orders.ts` lines 575-653):
a UTF-8 BOM, the header line, then every order's rows. -/
def csvExport (orders : List CsvOrder) : String :=
  "\uFEFF" ++ csvJoin (((orders.map orderRows).flatten).map rowString)

theorem undouble_double (l : List Char) :
    undoubleQuotes (doubleQuotes l) = l := by
  induction l with
  | nil => rfl
  | cons c cs ih =>
      by_cases hc : c = '"'
      · subst hc
        rw [doubleQuotes, if_pos rfl]
        rw [undoubleQuotes, if_pos ⟨rfl, rfl⟩, ih]
      · rw [doubleQuotes, if_neg hc]
        cases hd : doubleQuotes cs with
        | nil =>
            have hcs : cs = [] := by
              cases cs with
              | nil => rfl
              | cons x xs =>
                  exfalso
                  rw [doubleQuotes] at hd
                  split at hd <;> cases hd
            subst hcs
            rfl
        | cons d ds =>
            rw [undoubleQuotes, if_neg (by intro hcon; exact hc hcon.1), ← hd, ih]

/-- Escaping then parsing a CSV field is the identity. -/
theorem csvUnescape_csvEscape (s : String) : csvUnescape (csvEscape s) = s := by
  by_cases h : s.data.any needsQuote
  · rw [csvEscape, if_pos h]
    unfold csvUnescape
    simp only [List.dropLast_concat]
    rw [undouble_double]
  · rw [csvEscape, if_neg h]
    unfold csvUnescape
    split
    · rename_i rest heq
      exfalso
      apply h
      rw [heq]
      simp [needsQuote]
    · rfl

theorem csvJoin_prefix :
    ∀ (rows : List String) (acc : String),
      ∃ rest : String, rows.foldl (fun a r => a ++ "\n" ++ r) acc = acc ++ rest
        ∧ (rest = "" ∨ ∃ t, rest.data = '\n' :: t) := by
  intro rows
  induction rows with
  | nil =>
      intro acc
      exact ⟨"", by simp, Or.inl rfl⟩
  | cons r rs ih =>
      intro acc
      obtain ⟨rest, hrest, hshape⟩ := ih (acc ++ "\n" ++ r)
      refine ⟨"\n" ++ r ++ rest, ?_, Or.inr ⟨(r ++ rest).data, ?_⟩⟩
      · rw [List.foldl_cons, hrest]
        apply String.ext
        simp [String.data_append]
      · simp [String.data_append]

/-- C10: an order with no items contributes exactly the placeholder row
(empty item columns, quantity "0", money columns "0.00"); an order with
items contributes one row per item; field escaping is the lossless
standard CSV quoting; and the export starts with the UTF-8 BOM followed
by the fixed header line. -/
theorem claim_csv_export (orders : List CsvOrder) (o : CsvOrder) (s : String) :
    (o.items = [] → orderRows o = [placeholderRow o]
      ∧ (placeholderRow o).drop 19 = ["", "", "", "0", "0.00", "0.00"]
      ∧ (placeholderRow o).length = csvHeader.length)
    ∧ (o.items ≠ [] → (orderRows o).length = o.items.length
        ∧ ∀ it ∈ o.items, itemRow o it ∈ orderRows o)
    ∧ csvUnescape (csvEscape s) = s
    ∧ (s.data.any needsQuote = true →
        csvEscape s = ⟨'"' :: (doubleQuotes s.data ++ ['"'])⟩)
    ∧ (csvExport orders).data.head? = some '\uFEFF'
    ∧ (∃ rest : String,
        csvExport orders = "\uFEFF" ++ (String.intercalate "," csvHeader ++ rest)
        ∧ (rest = "" ∨ ∃ t, rest.data = '\n' :: t)) := by
  refine ⟨?_, ?_, csvUnescape_csvEscape s, ?_, ?_, ?_⟩
  · intro hempty
    refine ⟨by simp [orderRows, hempty], ?_, ?_⟩
    · simp [placeholderRow, orderBaseFields]
    · simp [placeholderRow, orderBaseFields, csvHeader]
  · intro hne
    constructor
    · simp [orderRows, List.isEmpty_iff, hne]
    · intro it hit
      simp only [orderRows, List.isEmpty_iff, if_neg hne]
      exact List.mem_map_of_mem _ hit
  · intro h
    rw [csvEscape, if_pos h]
  · show ("\uFEFF" ++ csvJoin _).data.head? = some '\uFEFF'
    rw [String.data_append]
    rfl
  · obtain ⟨rest, hrest, hshape⟩ :=
      csvJoin_prefix (((orders.map orderRows).flatten).map rowString)
        (String.intercalate "," csvHeader)
    exact ⟨rest, by rw [csvExport, csvJoin, hrest], hshape⟩

/-- The zero-item example order of the C10 witness. -/
def csvOrderNoItems : CsvOrder :=
  ⟨"o1", "2024-01-01T00:00:00.000Z", "RECEIVED", none, none, none, none,
    none, none, none, []⟩

/-- The two-item example order of the C10 witness. -/
def csvOrderTwoItems : CsvOrder :=
  ⟨"o2", "2024-01-02T00:00:00.000Z", "COMPLETED", none, none, none, none,
    some 10, some 10, some "USD",
    [⟨some "W", none, none, 1, some 5⟩, ⟨none, none, none, 2, some (5/2)⟩]⟩

/-- Witness for C10 on two concrete orders and the field `"a,b"`. -/
theorem claim_csv_export_witness :
    orderRows csvOrderNoItems = [placeholderRow csvOrderNoItems]
    ∧ (placeholderRow csvOrderNoItems).drop 19 = ["", "", "", "0", "0.00", "0.00"]
    ∧ (orderRows csvOrderTwoItems).length = 2
    ∧ csvUnescape (csvEscape ⟨['a', ',', 'b']⟩) = ⟨['a', ',', 'b']⟩
    ∧ (csvExport [csvOrderNoItems, csvOrderTwoItems]).data.head? = some '\uFEFF' := by
  have h1 := claim_csv_export [csvOrderNoItems, csvOrderTwoItems] csvOrderNoItems
    ⟨['a', ',', 'b']⟩
  have h2 := claim_csv_export [csvOrderNoItems, csvOrderTwoItems] csvOrderTwoItems
    ⟨['a', ',', 'b']⟩
  exact ⟨(h1.1 rfl).1, (h1.1 rfl).2.1,
    (h2.2.1 (by simp [csvOrderTwoItems])).1,
    h1.2.2.1, h1.2.2.2.2.1⟩

/-- C6: for every non-empty item list the totals calculator returns
equal subtotal and total, both the half-up two-decimal rounding of the
sum of `quantity * unitPrice`; a malformed unit price is coerced to 0,
and the single item `{qty: 3, unitPrice: 12.99}` yields 38.97. -/
theorem claim_calc_totals (items : List CalcItem) (h : items ≠ []) :
    (calcTotals items).1 = (calcTotals items).2
    ∧ (calcTotals items).1
        = round2 ((items.map (fun it => (it.quantity : ℚ) * asNum it.unitPrice)).sum)
    ∧ asNum none = 0
    ∧ calcTotals [⟨3, some (1299/100)⟩] = (3897/100, 3897/100) := by
  refine ⟨rfl, ?_, rfl, by norm_num [calcTotals, asNum, round2]⟩
  show round2 (items.foldl (fun acc it => acc + (it.quantity : ℚ) * asNum it.unitPrice) 0) = _
  rw [calcTotals_foldl_eq_sum]
  simp

/-- Witness for C6 at the single item `{qty: 3, unitPrice: 12.99}`. -/
theorem claim_calc_totals_witness :
    (calcTotals [⟨3, some (1299/100)⟩]).1 = (calcTotals [⟨3, some (1299/100)⟩]).2
    ∧ (calcTotals [⟨3, some (1299/100)⟩]).1
        = round2 (([⟨3, some (1299/100)⟩] : List CalcItem).map
            (fun it => (it.quantity : ℚ) * asNum it.unitPrice)).sum
    ∧ asNum none = 0
    ∧ calcTotals [⟨3, some (1299/100)⟩] = (3897/100, 3897/100) :=
  claim_calc_totals [⟨3, some (1299/100)⟩] (by simp)

end Listo
